import Mathlib

/-
  Verification of the crawl-and-download pipeline of rbg-live-dl
  (src/rbg_live_dl/__main__.py), a single-file batch downloader for a
  lecture-recording portal.

  Shallow embedding conventions:
  * Strings are `List Char`; Python text helpers become recursive Lean
    functions on character lists.
  * The effectful orchestrator `main` is embedded as a pure function over an
    explicit environment: per video and per attempt, the outcomes of the three
    effectful steps (metadata extraction, the filesystem probe
    `isfile`/`getsize`, and the download call) are inputs, and the orchestrator
    returns the chronological list of observable events it performs.
  * Fallible Python code (raising statements) returns `Except`.
  * Filesystem writes (makedirs, writing the failure artifact) are modelled as
    non-raising events, and `os.path.join` of the sanitized, separator-free
    components is plain concatenation with "/".
-/

namespace RbgLiveDl

/-! ## Character classes used by the regular expressions in the source -/

/-- The whitespace class matched by the Python regex `\s` and stripped by
`str.strip()`, restricted to ASCII: space, tab, newline, carriage return,
vertical tab, form feed. -/
def isSpaceB (c : Char) : Bool :=
  c = ' ' || c = '\t' || c = '\n' || c = '\r' || c = Char.ofNat 11 || c = Char.ofNat 12

/-- The reserved characters of the class `[\\/*?:"<>|]` replaced by
`sanitize_filename`. -/
def badChars : List Char := ['\\', '/', '*', '?', ':', '"', '<', '>', '|']

/-- Membership test for the class `[\\/*?:"<>|]`. -/
def isBad (c : Char) : Bool :=
  c = '\\' || c = '/' || c = '*' || c = '?' || c = ':' || c = '"' ||
  c = '<' || c = '>' || c = '|'

/-- One character of `re.sub(r'[\\/*?:"<>|]', '_', name)`: a reserved
character becomes an underscore, anything else is kept. -/
def replBad (c : Char) : Char := if isBad c then '_' else c

/-! ## sanitize_filename (source lines 22-24) -/

/-- `re.sub(r'\s+', ' ', s)`: every maximal run of whitespace is replaced by a
single space.  The boolean flag records whether the scanner is currently
inside a whitespace run (whose single replacement space has already been
emitted). -/
def collapseAux : Bool → List Char → List Char
  | _, [] => []
  | inRun, c :: cs =>
    if isSpaceB c then
      if inRun then collapseAux true cs
      else ' ' :: collapseAux true cs
    else c :: collapseAux false cs

/-- `re.sub(r'\s+', ' ', s)` on a whole string (scan starts outside a run). -/
def collapseWS (l : List Char) : List Char := collapseAux false l

/-- `str.lstrip()` (no arguments): drop leading whitespace. -/
def lstripWS (l : List Char) : List Char := l.dropWhile isSpaceB

/-- `str.rstrip()` (no arguments): drop trailing whitespace. -/
def rstripWS (l : List Char) : List Char := (l.reverse.dropWhile isSpaceB).reverse

/-- `str.strip()` (no arguments). -/
def stripWS (l : List Char) : List Char := rstripWS (lstripWS l)

/-- `sanitize_filename` (source lines 22-24):
`re.sub(r'\s+', ' ', re.sub(r'[\\/*?:"<>|]', '_', name)).strip()`. -/
def sanitize_filename (name : List Char) : List Char :=
  stripWS (collapseWS (name.map replBad))

/-- The normalization `re.sub(r'\s+', ' ', t).strip()` applied to scraped
element text before it is used (source lines 53, 87, 91). -/
def normText (l : List Char) : List Char := stripWS (collapseWS l)

/-! ## extract_year_or_fallback (source lines 26-32) -/

/-- One anchored probe of the regex `/(20\d{2})(?:/|$)` at the head of the
input: a slash, the digits 2 and 0, two further digits, then either the end of
the string or another slash.  Returns the captured group (the four digits). -/
def matchHead : List Char → Option (List Char)
  | '/' :: '2' :: '0' :: c :: d :: rest =>
    if c.isDigit ∧ d.isDigit ∧ (rest = [] ∨ rest.head? = some '/') then
      some ['2', '0', c, d]
    else none
  | _ => none

/-- `re.search(r"/(20\d{2})(?:/|$)", s)`: try the anchored probe at every
position, left to right, and return the first capture. -/
def findYear : List Char → Option (List Char)
  | [] => none
  | c :: cs =>
    match matchHead (c :: cs) with
    | some y => some y
    | none => findYear cs

/-- `extract_year_or_fallback` (source lines 26-32): the first `20\d\d`
segment of the path if the regex matches, otherwise the path with all leading
slashes stripped (`relative_path.lstrip("/")`). -/
def extract_year_or_fallback (relative_path : List Char) : List Char :=
  match findYear relative_path with
  | some y => y
  | none => relative_path.dropWhile (fun c => c == '/')

/-! ## extract_video_info (source lines 69-100)

The browser-session reads are modelled by a record of the relevant page data:
the `src` attribute of the stream source element (absent attribute =
`none`, matching `get_attribute` returning null), the path component of the
course link's href (the input that `urlparse(full_href).path` feeds to
`extract_year_or_fallback`), and the raw texts of the span and h1 elements.
The element waits themselves are assumed to succeed; their timeout failures
are browser-session errors, distinct from the `RuntimeError` raised here. -/

structure PageData where
  srcAttr : Option (List Char)
  relPath : List Char
  spanText : List Char
  h1Text : List Char

/-- The error raised by `extract_video_info` itself:
`RuntimeError("HLS URL not found")`. -/
inductive ExtractErr
  | streamNotFound
deriving DecidableEq

/-- `extract_video_info` (source lines 69-100): take the stream source `src`
attribute (`or ""` for an absent attribute), raise if it strips to empty,
otherwise return the stripped stream URL together with the sanitized folder
name `sanitize_filename(f"{span_text} - {year_or_path}")` and file stem
`sanitize_filename(h1_text)`. -/
def extract_video_info (p : PageData) :
    Except ExtractErr (List Char × List Char × List Char) :=
  let hls := p.srcAttr.getD []
  if stripWS hls = [] then
    .error .streamNotFound
  else
    let year_or_path := extract_year_or_fallback p.relPath
    let span_text := normText p.spanText
    let h1_text := normText p.h1Text
    let folder_base := span_text ++ (" - ".toList ++ year_or_path)
    .ok (stripWS hls, sanitize_filename folder_base, sanitize_filename h1_text)

/-! ## The download orchestrator (main, source lines 118-174) -/

/-- Observable events of one video's processing, in chronological order. -/
inductive Ev
  | extractCall
  | sleep (secs : Nat)
  | skip (path : List Char)
  | downloadCall (hls : List Char) (path : List Char)
  | failWrite (path : List Char)
deriving DecidableEq

/-- The environment of one attempt at one video: the outcome of
`extract_video_info` (a stream URL, folder and file name, or an exception),
the filesystem probe (`os.path.isfile` and `os.path.getsize` combined: the
size of the file at a path, if a file is there), and the outcome of
`download_hls`. -/
structure AttEnv where
  extract : Except Unit (List Char × List Char × List Char)
  fs : List Char → Option Nat
  download : Except Unit Unit

/-- `f"{counter:02d}"`: decimal, zero-padded on the left to two digits. -/
def pad2 (n : Nat) : List Char :=
  if n < 10 then '0' :: (Nat.repr n).toList else (Nat.repr n).toList

/-- The download target (source lines 146-149):
`os.path.join("out", folder, f"{counter:02d} {file_name}.mp4")`. -/
def outPath (folder : List Char) (counter : Nat) (file : List Char) : List Char :=
  "out/".toList ++ folder ++ ("/".toList ++ (pad2 counter ++ (" ".toList ++ (file ++ ".mp4".toList))))

/-- The failure-artifact path (source lines 164-166):
`os.path.join("out", folder if folder else "out", f"{counter:02d} {file_name}")`. -/
def errPath (folder : List Char) (counter : Nat) (file : List Char) : List Char :=
  "out/".toList ++ (if folder = [] then "out".toList else folder) ++
    ("/".toList ++ (pad2 counter ++ (" ".toList ++ file)))

/-- The idempotency test (source line 150):
`not overwrite and os.path.isfile(out_path) and os.path.getsize(out_path) > 1_000_000`. -/
def skipCond (overwrite : Bool) (fs : List Char → Option Nat) (path : List Char) : Bool :=
  !overwrite &&
    (match fs path with
     | some size => decide (size > 1000000)
     | none => false)

/-- The mutable per-video state of the attempt loop: the last successfully
extracted folder and file name (initially "unknown") and the remembered
exception `last_exception`. -/
structure VState where
  folder : List Char
  file : List Char
  lastExc : Option Unit

/-- The body of `for attempt in range(1, 4)` (source lines 143-161), one
recursive step per remaining attempt number.  Returns the events of the loop
in order together with the state at loop exit.  A successful download and a
triggered skip both `break`; an exception records itself in `last_exception`
and, when `attempt < 3`, is followed by `time.sleep(2)`. -/
def attemptLoop (overwrite : Bool) (counter : Nat) (env : Nat → AttEnv) :
    List Nat → VState → List Ev × VState
  | [], st => ([], st)
  | attempt :: rest, st =>
    match (env attempt).extract with
    | .error _ =>
      let st1 : VState := ⟨st.folder, st.file, some ()⟩
      let r := attemptLoop overwrite counter env rest st1
      if attempt < 3 then (Ev.extractCall :: Ev.sleep 2 :: r.1, r.2)
      else (Ev.extractCall :: r.1, r.2)
    | .ok info =>
      let hls := info.1
      let folder := info.2.1
      let file := info.2.2
      let path := outPath folder counter file
      if skipCond overwrite (env attempt).fs path then
        ([Ev.extractCall, Ev.skip path], ⟨folder, file, st.lastExc⟩)
      else
        match (env attempt).download with
        | .ok _ => ([Ev.extractCall, Ev.downloadCall hls path], ⟨folder, file, none⟩)
        | .error _ =>
          let st1 : VState := ⟨folder, file, some ()⟩
          let r := attemptLoop overwrite counter env rest st1
          if attempt < 3 then
            (Ev.extractCall :: Ev.downloadCall hls path :: Ev.sleep 2 :: r.1, r.2)
          else
            (Ev.extractCall :: Ev.downloadCall hls path :: r.1, r.2)

/-- Processing of one video (source lines 139-171): run the three attempts
with `folder = file_name = "unknown"` and `last_exception = None`, then, if an
exception is still remembered, write exactly one failure artifact. -/
def processVideo (overwrite : Bool) (counter : Nat) (env : Nat → AttEnv) : List Ev :=
  let r := attemptLoop overwrite counter env (List.range' 1 3)
    ⟨"unknown".toList, "unknown".toList, none⟩
  r.1 ++
    (match r.2.lastExc with
     | some _ => [Ev.failWrite (errPath r.2.folder counter r.2.file)]
     | none => [])

/-- The per-course loop body (source lines 134-171): each video at 0-based
listing position `idx` is processed with `counter = n_videos - idx`. -/
def processCourse (overwrite : Bool) (envs : List (Nat → AttEnv)) : List (List Ev) :=
  envs.enum.map (fun p => processVideo overwrite (envs.length - p.1) p.2)

/-- The course loop over all discovered courses (source lines 132-171). -/
def runAll (overwrite : Bool) (courses : List (List (Nat → AttEnv))) :
    List (List (List Ev)) :=
  courses.map (processCourse overwrite)

/-! ## The whole of main (source lines 118-174), for the session-release claim -/

/-- Run-level observable events. -/
inductive MEv
  | loginCall
  | getPinned
  | getVideoUrls
  | videoDone (trace : List Ev)
  | quit
deriving DecidableEq

/-- The course loop with the possibility that `get_video_urls` raises for some
course: such an exception is not caught and aborts the loop. -/
def courseLoop (overwrite : Bool) :
    List (Except Unit (List (Nat → AttEnv))) → List MEv × Except Unit Unit
  | [] => ([], .ok ())
  | c :: rest =>
    match c with
    | .error _ => ([MEv.getVideoUrls], .error ())
    | .ok envs =>
      let r := courseLoop overwrite rest
      (MEv.getVideoUrls :: ((processCourse overwrite envs).map MEv.videoDone ++ r.1), r.2)

/-- `main` from the creation of the browser session onwards (source lines
121-174): the `try` block runs login, course discovery and the course loop,
any of which may raise; the `finally` block appends `driver.quit()` on every
path, and a pending exception then propagates (the second component). -/
def mainRun (overwrite : Bool) (login : Except Unit Unit)
    (pinned : Except Unit (List (Except Unit (List (Nat → AttEnv))))) :
    List MEv × Except Unit Unit :=
  match login with
  | .error _ => ([MEv.loginCall, MEv.quit], .error ())
  | .ok _ =>
    match pinned with
    | .error _ => ([MEv.loginCall, MEv.getPinned, MEv.quit], .error ())
    | .ok cs =>
      let r := courseLoop overwrite cs
      (MEv.loginCall :: MEv.getPinned :: (r.1 ++ [MEv.quit]), r.2)

/-! ## Claim-side specification definitions -/

/-- A year-like segment at position `i` of the path: a path separator, the
four digits of `20\d\d`, and then a path separator or the end of the string. -/
def yearSegAt (s : List Char) (i : Nat) : Prop :=
  s[i]? = some '/' ∧ s[i + 1]? = some '2' ∧ s[i + 2]? = some '0' ∧
  (s[i + 3]?).any Char.isDigit = true ∧ (s[i + 4]?).any Char.isDigit = true ∧
  (s[i + 5]? = none ∨ s[i + 5]? = some '/')

instance (s : List Char) (i : Nat) : Decidable (yearSegAt s i) := by
  unfold yearSegAt
  infer_instance

/-- The four digits of the year-like segment at position `i`. -/
def yearDigits (s : List Char) (i : Nat) : List Char := (s.drop (i + 1)).take 4

/-- Every whitespace character of the string is the plain space. -/
def wsOk (l : List Char) : Prop := ∀ c ∈ l, isSpaceB c = true → c = ' '

/-- Relation forbidding two adjacent whitespace characters. -/
def noAdjR (a b : Char) : Prop := ¬(isSpaceB a = true ∧ isSpaceB b = true)

/-- The attempt raises: metadata resolution raises, or it succeeds, the
idempotency check does not trigger, and the download call raises. -/
def attemptRaises (o : Bool) (c : Nat) (e : AttEnv) : Prop :=
  e.extract = .error () ∨
  ∃ hls folder file, e.extract = .ok (hls, folder, file) ∧
    skipCond o e.fs (outPath folder c file) = false ∧ e.download = .error ()

/-- The attempt ends in a successful download: metadata resolution succeeds,
the idempotency check does not trigger, and the download call succeeds. -/
def attemptDownloadOk (o : Bool) (c : Nat) (e : AttEnv) : Prop :=
  ∃ hls folder file, e.extract = .ok (hls, folder, file) ∧
    skipCond o e.fs (outPath folder c file) = false ∧ e.download = .ok ()

/-! ## Concrete environments used in witnesses and counterexamples -/

/-- Every attempt raises during metadata resolution. -/
def alwaysFailEnv : Nat → AttEnv := fun _ => ⟨.error (), fun _ => none, .error ()⟩

/-- Every attempt resolves and downloads successfully; no file pre-exists. -/
def alwaysOkEnv : Nat → AttEnv :=
  fun _ => ⟨.ok ("h".toList, "F".toList, "T".toList), fun _ => none, .ok ()⟩

/-- Every attempt resolves; the target file already exists with 2,000,000
bytes. -/
def alwaysBigEnv : Nat → AttEnv :=
  fun _ => ⟨.ok ("h".toList, "F".toList, "T".toList), fun _ => some 2000000, .ok ()⟩

/-- Attempt 1 raises during metadata resolution; later attempts resolve and
find the target file already existing with 2,000,000 bytes. -/
def raiseThenBigEnv : Nat → AttEnv :=
  fun a => if a = 1 then alwaysFailEnv a else alwaysBigEnv a

/-- Attempt 1 raises during metadata resolution; later attempts resolve and
download successfully. -/
def raiseThenOkEnv : Nat → AttEnv :=
  fun a => if a = 1 then alwaysFailEnv a else alwaysOkEnv a

/-- A concrete video page for witnesses: stream attribute present with
surrounding whitespace, a year-bearing link path, short span and title. -/
def c7Page : PageData :=
  ⟨some "  http://x  ".toList, "/a/2021".toList, "Sp".toList, "Ti".toList⟩

/-! ## Lemmas about whitespace stripping -/

theorem dropWhile_head_not (p : Char → Bool) (l : List Char) (c : Char)
    (h : (l.dropWhile p).head? = some c) : p c = false := by
  induction l with
  | nil => simp [List.dropWhile] at h
  | cons a t ih =>
    rw [List.dropWhile_cons] at h
    by_cases hp : p a
    · rw [if_pos hp] at h
      exact ih h
    · rw [if_neg hp] at h
      simp at h
      subst h
      simpa using hp

theorem dropWhile_eq_self_of_head (p : Char → Bool) (l : List Char)
    (h : ∀ c, l.head? = some c → p c = false) : l.dropWhile p = l := by
  cases l with
  | nil => rfl
  | cons a t =>
    rw [List.dropWhile_cons, if_neg]
    simp [h a rfl]

theorem lstripWS_head (l : List Char) (c : Char) (h : (lstripWS l).head? = some c) :
    isSpaceB c = false :=
  dropWhile_head_not _ _ _ h

theorem rstripWS_front (l : List Char) : rstripWS l <+: l := by
  rw [← List.reverse_suffix]
  unfold rstripWS
  rw [List.reverse_reverse]
  exact List.dropWhile_suffix _

theorem stripWS_within (l : List Char) : stripWS l <:+: l := by
  obtain ⟨t, ht⟩ := rstripWS_front (lstripWS l)
  obtain ⟨s, hs⟩ := (List.dropWhile_suffix isSpaceB : lstripWS l <:+ l)
  refine ⟨s, t, ?_⟩
  rw [List.append_assoc]
  show s ++ (rstripWS (lstripWS l) ++ t) = l
  rw [ht]
  exact hs

theorem stripWS_head (l : List Char) (c : Char) (h : (stripWS l).head? = some c) :
    isSpaceB c = false := by
  obtain ⟨t, ht⟩ := rstripWS_front (lstripWS l)
  have hs : stripWS l = rstripWS (lstripWS l) := rfl
  rw [hs] at h
  cases he : rstripWS (lstripWS l) with
  | nil => rw [he] at h; simp at h
  | cons a r =>
    rw [he] at h
    simp at h
    subst h
    apply lstripWS_head l
    rw [← ht, he]
    rfl

theorem stripWS_getLast (l : List Char) (c : Char) (h : (stripWS l).getLast? = some c) :
    isSpaceB c = false := by
  have hs : stripWS l = rstripWS (lstripWS l) := rfl
  rw [hs] at h
  unfold rstripWS at h
  rw [List.getLast?_reverse] at h
  exact dropWhile_head_not _ _ _ h

theorem stripWS_eq_self (l : List Char)
    (hh : ∀ c, l.head? = some c → isSpaceB c = false)
    (hl : ∀ c, l.getLast? = some c → isSpaceB c = false) : stripWS l = l := by
  unfold stripWS rstripWS lstripWS
  rw [dropWhile_eq_self_of_head _ _ hh]
  rw [dropWhile_eq_self_of_head _ _
    (fun c hc => hl c (by rw [← List.head?_reverse]; exact hc))]
  exact List.reverse_reverse l

theorem stripWS_idem (l : List Char) : stripWS (stripWS l) = stripWS l :=
  stripWS_eq_self _ (stripWS_head l) (stripWS_getLast l)

theorem stripWS_eq_nil_iff (l : List Char) :
    stripWS l = [] ↔ ∀ c ∈ l, isSpaceB c = true := by
  unfold stripWS rstripWS lstripWS
  rw [List.reverse_eq_nil_iff, List.dropWhile_eq_nil_iff]
  constructor
  · intro h c hc
    have hc2 : c ∈ l.takeWhile isSpaceB ++ l.dropWhile isSpaceB := by
      rw [List.takeWhile_append_dropWhile]; exact hc
    rcases List.mem_append.mp hc2 with h1 | h2
    · exact List.mem_takeWhile_imp h1
    · exact h c (List.mem_reverse.mpr h2)
  · intro h c hc
    exact h c ((List.dropWhile_suffix _).subset (List.mem_reverse.mp hc))

/-! ## Lemmas about whitespace collapsing -/

theorem collapseAux_mem (b : Bool) (l : List Char) (c : Char)
    (h : c ∈ collapseAux b l) : c = ' ' ∨ c ∈ l := by
  induction l generalizing b with
  | nil => simp [collapseAux] at h
  | cons a t ih =>
    by_cases ha : isSpaceB a
    · cases b with
      | true =>
        rw [collapseAux, if_pos ha, if_pos rfl] at h
        rcases ih true h with h1 | h1
        · exact Or.inl h1
        · exact Or.inr (List.mem_cons_of_mem _ h1)
      | false =>
        rw [collapseAux, if_pos ha, if_neg (by simp)] at h
        rcases List.mem_cons.mp h with rfl | h1
        · exact Or.inl rfl
        · rcases ih true h1 with h2 | h2
          · exact Or.inl h2
          · exact Or.inr (List.mem_cons_of_mem _ h2)
    · rw [collapseAux, if_neg ha] at h
      rcases List.mem_cons.mp h with rfl | h1
      · exact Or.inr (List.mem_cons_self _ _)
      · rcases ih false h1 with h2 | h2
        · exact Or.inl h2
        · exact Or.inr (List.mem_cons_of_mem _ h2)

theorem collapseAux_wsOk (b : Bool) (l : List Char) : wsOk (collapseAux b l) := by
  induction l generalizing b with
  | nil => intro c hc; simp [collapseAux] at hc
  | cons a t ih =>
    intro c hc hs
    by_cases ha : isSpaceB a
    · cases b with
      | true =>
        rw [collapseAux, if_pos ha, if_pos rfl] at hc
        exact ih true c hc hs
      | false =>
        rw [collapseAux, if_pos ha, if_neg (by simp)] at hc
        rcases List.mem_cons.mp hc with rfl | h1
        · rfl
        · exact ih true c h1 hs
    · rw [collapseAux, if_neg ha] at hc
      rcases List.mem_cons.mp hc with rfl | h1
      · exact absurd hs ha
      · exact ih false c h1 hs

theorem collapseAux_true_head (l : List Char) (c : Char)
    (h : (collapseAux true l).head? = some c) : isSpaceB c = false := by
  induction l with
  | nil => simp [collapseAux] at h
  | cons a t ih =>
    by_cases ha : isSpaceB a
    · rw [collapseAux, if_pos ha, if_pos rfl] at h
      exact ih h
    · rw [collapseAux, if_neg ha] at h
      simp at h
      subst h
      simpa using ha

theorem collapseAux_chain (b : Bool) (l : List Char) :
    List.Chain' noAdjR (collapseAux b l) := by
  induction l generalizing b with
  | nil => simp [collapseAux]
  | cons a t ih =>
    by_cases ha : isSpaceB a
    · cases b with
      | true =>
        rw [collapseAux, if_pos ha, if_pos rfl]
        exact ih true
      | false =>
        rw [collapseAux, if_pos ha, if_neg (by simp)]
        rw [List.chain'_cons']
        refine ⟨?_, ih true⟩
        intro d hd
        have hdn : isSpaceB d = false := collapseAux_true_head t d hd
        simp [noAdjR, hdn]
    · rw [collapseAux, if_neg ha]
      rw [List.chain'_cons']
      refine ⟨?_, ih false⟩
      intro d hd
      simp [noAdjR, ha]

theorem collapseAux_true_eq (l : List Char)
    (h : ∀ c, l.head? = some c → isSpaceB c = false) :
    collapseAux true l = collapseAux false l := by
  cases l with
  | nil => rfl
  | cons a t =>
    have ha := h a rfl
    rw [collapseAux, collapseAux, if_neg (by simp [ha]), if_neg (by simp [ha])]

theorem collapseWS_eq_self :
    ∀ l : List Char, wsOk l → List.Chain' noAdjR l → collapseWS l = l := by
  intro l
  induction l with
  | nil => intro _ _; rfl
  | cons a t ih =>
    intro hws hch
    by_cases ha : isSpaceB a
    · have ha' : a = ' ' := hws a (List.mem_cons_self _ _) ha
      subst ha'
      show collapseAux false (' ' :: t) = ' ' :: t
      rw [collapseAux, if_pos (by decide), if_neg (by simp)]
      congr 1
      have hhead : ∀ c, t.head? = some c → isSpaceB c = false := by
        intro c hc
        have hrel := (List.chain'_cons'.mp hch).1 c hc
        cases hcb : isSpaceB c with
        | false => rfl
        | true => exact absurd ⟨by decide, hcb⟩ hrel
      rw [collapseAux_true_eq t hhead]
      exact ih (fun c hc hs => hws c (List.mem_cons_of_mem _ hc) hs)
        (List.chain'_cons'.mp hch).2
    · show collapseAux false (a :: t) = a :: t
      rw [collapseAux, if_neg ha]
      congr 1
      exact ih (fun c hc hs => hws c (List.mem_cons_of_mem _ hc) hs)
        (List.chain'_cons'.mp hch).2

/-! ## Lemmas about the reserved characters -/

theorem isBad_replBad (c : Char) : isBad (replBad c) = false := by
  unfold replBad
  by_cases h : isBad c
  · rw [if_pos h]; decide
  · rw [if_neg h]; simpa using h

theorem mem_map_replBad_not_bad (x : List Char) (c : Char)
    (h : c ∈ x.map replBad) : isBad c = false := by
  obtain ⟨a, _, rfl⟩ := List.mem_map.mp h
  exact isBad_replBad a

theorem map_replBad_eq_self (l : List Char) (h : ∀ c ∈ l, isBad c = false) :
    l.map replBad = l := by
  have h2 : l.map replBad = l.map id := List.map_eq_map_iff.mpr (fun a ha => by
    unfold replBad
    rw [if_neg (by simp [h a ha])]
    rfl)
  rw [h2, List.map_id]

theorem isBad_of_mem_badChars (c : Char) (h : c ∈ badChars) : isBad c = true := by
  simp only [badChars, List.mem_cons, List.not_mem_nil, or_false] at h
  rcases h with rfl | rfl | rfl | rfl | rfl | rfl | rfl | rfl | rfl <;> decide

theorem sanitize_filename_not_bad (x : List Char) :
    ∀ c ∈ sanitize_filename x, isBad c = false := by
  intro c hc
  have h1 : c ∈ collapseWS (x.map replBad) := (stripWS_within _).subset hc
  rcases collapseAux_mem false _ c h1 with rfl | h2
  · decide
  · exact mem_map_replBad_not_bad x c h2

theorem sanitize_filename_idem (x : List Char) :
    sanitize_filename (sanitize_filename x) = sanitize_filename x := by
  have h1 : (sanitize_filename x).map replBad = sanitize_filename x :=
    map_replBad_eq_self _ (sanitize_filename_not_bad x)
  have hinf : sanitize_filename x <:+: collapseWS (x.map replBad) := stripWS_within _
  have hws : wsOk (sanitize_filename x) := fun c hc hs =>
    collapseAux_wsOk false _ c (hinf.subset hc) hs
  have hch : List.Chain' noAdjR (sanitize_filename x) :=
    List.Chain'.infix (collapseAux_chain false _) hinf
  have h2 : collapseWS (sanitize_filename x) = sanitize_filename x :=
    collapseWS_eq_self _ hws hch
  show stripWS (collapseWS ((sanitize_filename x).map replBad)) = sanitize_filename x
  rw [h1, h2]
  exact stripWS_idem _

/-- C6: `sanitize_filename` is idempotent, and its output never contains any
of the nine reserved characters backslash, slash, star, question mark, colon,
double quote, less-than, greater-than, pipe. -/
theorem sanitize_filename_idem_and_safe :
    ∀ x : List Char,
      sanitize_filename (sanitize_filename x) = sanitize_filename x ∧
      ∀ c ∈ sanitize_filename x, c ∉ badChars := by
  intro x
  refine ⟨sanitize_filename_idem x, fun c hc hmem => ?_⟩
  have h1 := sanitize_filename_not_bad x c hc
  have h2 := isBad_of_mem_badChars c hmem
  rw [h1] at h2
  exact Bool.false_ne_true h2

/-- Witness for C6: the general theorem applied at the concrete input
" a/b ". -/
theorem sanitize_filename_idem_and_safe_witness :
    (sanitize_filename (sanitize_filename " a/b ".toList) =
      sanitize_filename " a/b ".toList) ∧ 'a' ∉ badChars :=
  ⟨(sanitize_filename_idem_and_safe " a/b ".toList).1,
   (sanitize_filename_idem_and_safe " a/b ".toList).2 'a' (by decide)⟩

/-- C7: metadata resolution fails with the stream-not-found error exactly when
the stream source attribute is missing or whitespace-only; when present and
non-whitespace, the returned stream URL is the attribute value stripped of
surrounding whitespace, and it is non-empty. -/
theorem extract_video_info_stream_spec :
    ∀ p : PageData,
      (extract_video_info p = .error .streamNotFound ↔
        (p.srcAttr = none ∨ ∃ s, p.srcAttr = some s ∧ ∀ c ∈ s, isSpaceB c = true)) ∧
      (∀ hls folder file, extract_video_info p = .ok (hls, folder, file) →
        hls = stripWS (p.srcAttr.getD []) ∧ hls ≠ []) := by
  intro p
  have key : stripWS (p.srcAttr.getD []) = [] ↔
      (p.srcAttr = none ∨ ∃ s, p.srcAttr = some s ∧ ∀ c ∈ s, isSpaceB c = true) := by
    rw [stripWS_eq_nil_iff]
    cases p.srcAttr with
    | none => simp
    | some s => simp
  have e1 : extract_video_info p = .error .streamNotFound ↔
      stripWS (p.srcAttr.getD []) = [] := by
    unfold extract_video_info
    by_cases h : stripWS (p.srcAttr.getD []) = [] <;> simp [h]
  refine ⟨e1.trans key, ?_⟩
  intro hls folder file h
  simp only [extract_video_info] at h
  by_cases hn : stripWS (p.srcAttr.getD []) = []
  · simp [hn] at h
  · rw [if_neg hn] at h
    simp only [Except.ok.injEq, Prod.mk.injEq] at h
    obtain ⟨h1, h2, h3⟩ := h
    exact ⟨h1.symm, by rw [← h1]; exact hn⟩

/-- Witness for C7: the spec applied to the concrete page with stream
attribute "  http://x  ". -/
theorem extract_video_info_stream_spec_witness :
    "http://x".toList = stripWS (c7Page.srcAttr.getD []) ∧ "http://x".toList ≠ [] :=
  (extract_video_info_stream_spec c7Page).2 "http://x".toList "Sp - 2021".toList
    "Ti".toList rfl

/-! ## Lemmas about the year regex -/

theorem drop_eq_cons_of_getElem? (s : List Char) (i : Nat) (a : Char)
    (h : s[i]? = some a) : s.drop i = a :: s.drop (i + 1) := by
  obtain ⟨hlt, he⟩ := List.getElem?_eq_some.mp h
  rw [List.drop_eq_getElem_cons hlt, he]

theorem yearSegAt_shape (s : List Char) (i : Nat) (h : yearSegAt s i) :
    ∃ c d, s.drop i = '/' :: '2' :: '0' :: c :: d :: s.drop (i + 5) ∧
      c.isDigit = true ∧ d.isDigit = true := by
  obtain ⟨h0, h1, h2, h3, h4, h5⟩ := h
  cases hc : s[i + 3]? with
  | none => rw [hc] at h3; simp [Option.any] at h3
  | some c =>
    cases hd : s[i + 4]? with
    | none => rw [hd] at h4; simp [Option.any] at h4
    | some d =>
      have d0 : s.drop i = '/' :: s.drop (i + 1) := drop_eq_cons_of_getElem? s i '/' h0
      have d1 : s.drop (i + 1) = '2' :: s.drop (i + 2) :=
        drop_eq_cons_of_getElem? s (i + 1) '2' h1
      have d2 : s.drop (i + 2) = '0' :: s.drop (i + 3) :=
        drop_eq_cons_of_getElem? s (i + 2) '0' h2
      have d3 : s.drop (i + 3) = c :: s.drop (i + 4) :=
        drop_eq_cons_of_getElem? s (i + 3) c hc
      have d4 : s.drop (i + 4) = d :: s.drop (i + 5) :=
        drop_eq_cons_of_getElem? s (i + 4) d hd
      refine ⟨c, d, ?_, ?_, ?_⟩
      · rw [d0, d1, d2, d3, d4]
      · rw [hc] at h3; simpa [Option.any] using h3
      · rw [hd] at h4; simpa [Option.any] using h4

theorem matchHead_of_yearSegAt (s : List Char) (i : Nat) (h : yearSegAt s i) :
    matchHead (s.drop i) = some (yearDigits s i) := by
  obtain ⟨c, d, hsh, hc, hd⟩ := yearSegAt_shape s i h
  obtain ⟨-, -, -, -, -, h5⟩ := h
  have hrest : s.drop (i + 5) = [] ∨ (s.drop (i + 5)).head? = some '/' := by
    rcases h5 with h5 | h5
    · exact Or.inl (List.drop_eq_nil_of_le (List.getElem?_eq_none_iff.mp h5))
    · right; rw [List.head?_drop]; exact h5
  have t1 : s.drop (i + 1) = '2' :: '0' :: c :: d :: s.drop (i + 5) := by
    rw [← List.tail_drop, hsh]
    rfl
  rw [hsh]
  simp only [matchHead]
  rw [if_pos ⟨hc, hd, hrest⟩]
  unfold yearDigits
  rw [t1]
  rfl

theorem matchHead_some_inv (l : List Char) (y : List Char) (h : matchHead l = some y) :
    ∃ c d rest, l = '/' :: '2' :: '0' :: c :: d :: rest ∧ c.isDigit = true ∧
      d.isDigit = true ∧ (rest = [] ∨ rest.head? = some '/') ∧ y = ['2', '0', c, d] := by
  unfold matchHead at h
  split at h
  · next c d rest =>
      split at h
      · next hcond =>
          obtain ⟨hc, hd, hrest⟩ := hcond
          injection h with hy
          exact ⟨c, d, rest, rfl, hc, hd, hrest, hy.symm⟩
      · exact absurd h (by simp)
  · exact absurd h (by simp)

theorem yearSegAt_of_matchHead (s : List Char) (i : Nat) (y : List Char)
    (h : matchHead (s.drop i) = some y) : yearSegAt s i ∧ y = yearDigits s i := by
  obtain ⟨c, d, rest, hsh, hc, hd, hrest, hy⟩ := matchHead_some_inv _ _ h
  have g0 : s[i]? = some '/' := by rw [← List.head?_drop, hsh]; rfl
  have t1 : s.drop (i + 1) = '2' :: '0' :: c :: d :: rest := by
    rw [← List.tail_drop, hsh]
    rfl
  have g1 : s[i + 1]? = some '2' := by rw [← List.head?_drop, t1]; rfl
  have t2 : s.drop (i + 2) = '0' :: c :: d :: rest := by
    show s.drop (i + 1 + 1) = _
    rw [← List.tail_drop, t1]
    rfl
  have g2 : s[i + 2]? = some '0' := by rw [← List.head?_drop, t2]; rfl
  have t3 : s.drop (i + 3) = c :: d :: rest := by
    show s.drop (i + 2 + 1) = _
    rw [← List.tail_drop, t2]
    rfl
  have g3 : s[i + 3]? = some c := by rw [← List.head?_drop, t3]; rfl
  have t4 : s.drop (i + 4) = d :: rest := by
    show s.drop (i + 3 + 1) = _
    rw [← List.tail_drop, t3]
    rfl
  have g4 : s[i + 4]? = some d := by rw [← List.head?_drop, t4]; rfl
  have t5 : s.drop (i + 5) = rest := by
    show s.drop (i + 4 + 1) = _
    rw [← List.tail_drop, t4]
    rfl
  constructor
  · refine ⟨g0, g1, g2, ?_, ?_, ?_⟩
    · rw [g3]; simpa [Option.any] using hc
    · rw [g4]; simpa [Option.any] using hd
    · rcases hrest with hr | hr
      · left; rw [← List.head?_drop, t5, hr]; rfl
      · right; rw [← List.head?_drop, t5]; exact hr
  · rw [hy]
    unfold yearDigits
    rw [t1]
    rfl

theorem findYear_eq_none (s : List Char)
    (h : ∀ i, matchHead (s.drop i) = none) : findYear s = none := by
  induction s with
  | nil => rfl
  | cons a t ih =>
    have h0 : matchHead (a :: t) = none := h 0
    rw [findYear, h0]
    exact ih (fun i => h (i + 1))

theorem findYear_eq_some (s : List Char) (i : Nat) (y : List Char)
    (hm : matchHead (s.drop i) = some y)
    (hmin : ∀ j, j < i → matchHead (s.drop j) = none) : findYear s = some y := by
  induction s generalizing i with
  | nil =>
    have hm' : matchHead [] = some y := by rw [List.drop_nil] at hm; exact hm
    exact Option.noConfusion hm'
  | cons a t ih =>
    cases i with
    | zero =>
      have h0 : matchHead (a :: t) = some y := hm
      rw [findYear, h0]
    | succ j =>
      have h0 : matchHead (a :: t) = none := hmin 0 (Nat.succ_pos j)
      rw [findYear, h0]
      exact ih j hm (fun k hk => hmin (k + 1) (Nat.succ_lt_succ hk))

/-- C5: extract_year_or_fallback returns the digits of the first year-like
segment (the pattern 20 followed by two digits, preceded by a path separator
and followed by a separator or the end of the string) when one exists, and
otherwise the path with its leading separators stripped; in particular it
maps "/course/2021/S/ma0005" to "2021" and "/course/noyear/ma0005" to
"course/noyear/ma0005". -/
theorem extract_year_or_fallback_spec :
    (∀ (s : List Char) (i : Nat), yearSegAt s i → (∀ j, j < i → ¬ yearSegAt s j) →
      extract_year_or_fallback s = yearDigits s i) ∧
    (∀ s : List Char, (∀ i, ¬ yearSegAt s i) →
      extract_year_or_fallback s = s.dropWhile (fun c => c == '/')) ∧
    extract_year_or_fallback "/course/2021/S/ma0005".toList = "2021".toList ∧
    extract_year_or_fallback "/course/noyear/ma0005".toList =
      "course/noyear/ma0005".toList := by
  refine ⟨?_, ?_, by decide, by decide⟩
  · intro s i hseg hmin
    have hm := matchHead_of_yearSegAt s i hseg
    have hmin' : ∀ j, j < i → matchHead (s.drop j) = none := by
      intro j hj
      cases hmj : matchHead (s.drop j) with
      | none => rfl
      | some y => exact absurd (yearSegAt_of_matchHead s j y hmj).1 (hmin j hj)
    unfold extract_year_or_fallback
    rw [findYear_eq_some s i _ hm hmin']
  · intro s hno
    have hn : findYear s = none := findYear_eq_none s (fun i => by
      cases hmi : matchHead (s.drop i) with
      | none => rfl
      | some y => exact absurd (yearSegAt_of_matchHead s i y hmi).1 (hno i))
    unfold extract_year_or_fallback
    rw [hn]

/-- Witness for C5: the general clause applied at the concrete path
"/course/2021/S/ma0005", whose first year-like segment starts at index 7. -/
theorem extract_year_or_fallback_spec_witness :
    extract_year_or_fallback "/course/2021/S/ma0005".toList =
      yearDigits "/course/2021/S/ma0005".toList 7 :=
  extract_year_or_fallback_spec.1 "/course/2021/S/ma0005".toList 7 (by decide) (by decide)

/-! ## Lemmas about the orchestrator -/

theorem processCourse_getElem? (o : Bool) (envs : List (Nat → AttEnv)) (i : Nat)
    (env : Nat → AttEnv) (h : envs[i]? = some env) :
    (processCourse o envs)[i]? = some (processVideo o (envs.length - i) env) := by
  unfold processCourse
  rw [List.getElem?_map, List.getElem?_enum, h]
  rfl

theorem skipCond_overwrite (fs : List Char → Option Nat) (p : List Char) :
    skipCond true fs p = false := by
  simp [skipCond]

theorem attemptLoop_no_skip_overwrite (c : Nat) (env : Nat → AttEnv) (p : List Char) :
    ∀ (l : List Nat) (st : VState), Ev.skip p ∉ (attemptLoop true c env l st).1 := by
  intro l
  induction l with
  | nil => intro st; simp [attemptLoop]
  | cons a rest ih =>
    intro st
    cases hx : (env a).extract with
    | error e =>
      simp only [attemptLoop, hx]
      by_cases h3 : a < 3 <;> simp [h3, ih]
    | ok info =>
      simp only [attemptLoop, hx]
      rw [skipCond_overwrite]
      cases hd : (env a).download with
      | ok u => simp
      | error e => by_cases h3 : a < 3 <;> simp [h3, ih]

theorem attemptLoop_no_failWrite (o : Bool) (c : Nat) (env : Nat → AttEnv) (p : List Char) :
    ∀ (l : List Nat) (st : VState), Ev.failWrite p ∉ (attemptLoop o c env l st).1 := by
  intro l
  induction l with
  | nil => intro st; simp [attemptLoop]
  | cons a rest ih =>
    intro st
    cases hx : (env a).extract with
    | error e =>
      simp only [attemptLoop, hx]
      by_cases h3 : a < 3 <;> simp [h3, ih]
    | ok info =>
      simp only [attemptLoop, hx]
      by_cases hsk : skipCond o (env a).fs (outPath info.2.1 c info.2.2) = true
      · simp [hsk]
      · cases hd : (env a).download with
        | ok u => simp [hsk]
        | error e => by_cases h3 : a < 3 <;> simp [hsk, h3, ih]

theorem attemptLoop_snd_raise (o : Bool) (c : Nat) (env : Nat → AttEnv) (a : Nat)
    (rest : List Nat) (st : VState) (h : attemptRaises o c (env a)) :
    ∃ fld fl, (attemptLoop o c env (a :: rest) st).2 =
      (attemptLoop o c env rest ⟨fld, fl, some ()⟩).2 := by
  rcases h with he | ⟨hls, folder, file, hex, hsk, hdl⟩
  · refine ⟨st.folder, st.file, ?_⟩
    simp only [attemptLoop, he]
    by_cases h3 : a < 3 <;> simp [h3]
  · refine ⟨folder, file, ?_⟩
    simp only [attemptLoop, hex]
    rw [hsk]
    by_cases h3 : a < 3 <;> simp [hdl, h3]

theorem attemptLoop_snd_success (o : Bool) (c : Nat) (env : Nat → AttEnv) (a : Nat)
    (rest : List Nat) (st : VState) (h : attemptDownloadOk o c (env a)) :
    (attemptLoop o c env (a :: rest) st).2.lastExc = none := by
  obtain ⟨hls, folder, file, hex, hsk, hdl⟩ := h
  simp [attemptLoop, hex, hsk, hdl]

/-- C1: a video that becomes FAILED does not abort the course loop or the run.
Every video of every course yields a trace computed from that video's own
environment and listing position alone, so a permanently failing earlier video
 — or a whole earlier course of failing videos — cannot prevent or alter the
processing of any later video.  Per-video processing is a total function: the
loop body consumes every exception of its attempts, so none escapes. -/
theorem per_video_isolation :
    ∀ (o : Bool) (courses : List (List (Nat → AttEnv))) (ci vi : Nat)
      (envs : List (Nat → AttEnv)) (env : Nat → AttEnv),
      courses[ci]? = some envs → envs[vi]? = some env →
      ∃ courseTraces, (runAll o courses)[ci]? = some courseTraces ∧
        courseTraces[vi]? = some (processVideo o (envs.length - vi) env) := by
  intro o courses ci vi envs env h1 h2
  refine ⟨processCourse o envs, ?_, processCourse_getElem? o envs vi env h2⟩
  unfold runAll
  rw [List.getElem?_map, h1]
  rfl

/-- Witness for C1: in a run with two courses whose first video always fails,
the second video of the first course is still processed. -/
theorem per_video_isolation_witness :
    ∃ courseTraces,
      (runAll false [[alwaysFailEnv, alwaysOkEnv], [alwaysOkEnv]])[0]? =
        some courseTraces ∧
      courseTraces[1]? = some (processVideo false (2 - 1) alwaysOkEnv) :=
  per_video_isolation false [[alwaysFailEnv, alwaysOkEnv], [alwaysOkEnv]] 0 1
    [alwaysFailEnv, alwaysOkEnv] alwaysOkEnv rfl rfl

/-- C2: a video whose metadata resolution raises on every attempt is attempted
exactly 3 times, sleeping the fixed 2-unit delay exactly twice — after attempt
1 and after attempt 2, never after attempt 3 — then writes exactly one failure
record, and the next video of the course is still processed. -/
theorem retry_bound :
    ∀ (o : Bool) (c : Nat) (env : Nat → AttEnv),
      (∀ a, 1 ≤ a → a ≤ 3 → (env a).extract = .error ()) →
      processVideo o c env =
        [Ev.extractCall, Ev.sleep 2, Ev.extractCall, Ev.sleep 2, Ev.extractCall,
         Ev.failWrite (errPath "unknown".toList c "unknown".toList)] ∧
      ∀ (envs : List (Nat → AttEnv)) (i : Nat) (env2 : Nat → AttEnv),
        envs[i]? = some env → envs[i + 1]? = some env2 →
        (processCourse o envs)[i + 1]? =
          some (processVideo o (envs.length - (i + 1)) env2) := by
  intro o c env h
  have h1 := h 1 (by omega) (by omega)
  have h2 := h 2 (by omega) (by omega)
  have h3 := h 3 (by omega) (by omega)
  constructor
  · unfold processVideo
    rw [show List.range' 1 3 = [1, 2, 3] from rfl]
    simp [attemptLoop, h1, h2, h3]
  · intro envs i env2 _ hb
    exact processCourse_getElem? o envs (i + 1) env2 hb

/-- Witness for C2: the three-attempt trace at a concrete always-failing
video, and the processing of the next video in a two-video course. -/
theorem retry_bound_witness :
    processVideo false 5 alwaysFailEnv =
      [Ev.extractCall, Ev.sleep 2, Ev.extractCall, Ev.sleep 2, Ev.extractCall,
       Ev.failWrite (errPath "unknown".toList 5 "unknown".toList)] ∧
    (processCourse false [alwaysFailEnv, alwaysFailEnv])[0 + 1]? =
      some (processVideo false (2 - (0 + 1)) alwaysFailEnv) :=
  ⟨(retry_bound false 5 alwaysFailEnv (fun _ _ _ => rfl)).1,
   (retry_bound false 2 alwaysFailEnv (fun _ _ _ => rfl)).2
     [alwaysFailEnv, alwaysFailEnv] 0 alwaysFailEnv rfl rfl⟩

/-- C3 (code bug): with overwrite disabled, when attempt 1 raises and attempt
2 finds the target file already existing with 2,000,000 bytes, the skip is
taken — no download call, no third attempt — but the orchestrator still
writes a failure record for the video, because the skip break does not clear
last_exception; the spec says a skip is not an error and no FailureRecord is
written regardless of earlier raises. -/
theorem skip_after_raise_still_writes_failure_record :
    processVideo false 5 raiseThenBigEnv =
      [Ev.extractCall, Ev.sleep 2, Ev.extractCall,
       Ev.skip "out/F/05 T.mp4".toList, Ev.failWrite "out/F/05 T".toList] := by
  decide

/-- C4: the video at 0-based listing position i of a course with N videos is
assigned ordinal N - i; for N = 5 the ordinals at positions 0..4 are
5, 4, 3, 2, 1, visible as the artifact names 05..01 of five permanently
failing videos. -/
theorem ordinal_assignment :
    (∀ (o : Bool) (envs : List (Nat → AttEnv)) (i : Nat) (env : Nat → AttEnv),
      envs[i]? = some env →
      (processCourse o envs)[i]? = some (processVideo o (envs.length - i) env)) ∧
    (processCourse false (List.replicate 5 alwaysFailEnv)).map (fun t => t.getLast?) =
      [some (Ev.failWrite "out/unknown/05 unknown".toList),
       some (Ev.failWrite "out/unknown/04 unknown".toList),
       some (Ev.failWrite "out/unknown/03 unknown".toList),
       some (Ev.failWrite "out/unknown/02 unknown".toList),
       some (Ev.failWrite "out/unknown/01 unknown".toList)] := by
  exact ⟨processCourse_getElem?, by decide⟩

/-- Witness for C4: the general clause applied to a one-video course. -/
theorem ordinal_assignment_witness :
    (processCourse false [alwaysFailEnv])[0]? =
      some (processVideo false (1 - 0) alwaysFailEnv) :=
  ordinal_assignment.1 false [alwaysFailEnv] 0 alwaysFailEnv rfl

/-- C8: on every exit path after the browser session is created — normal
completion, or an error during login, course discovery, video listing or any
later step — the final run event is the session release driver.quit(). -/
theorem driver_quit_on_all_paths :
    ∀ (o : Bool) (login : Except Unit Unit)
      (pinned : Except Unit (List (Except Unit (List (Nat → AttEnv))))),
      ((mainRun o login pinned).1).getLast? = some MEv.quit := by
  intro o login pinned
  cases login with
  | error e => rfl
  | ok u =>
    cases pinned with
    | error e => rfl
    | ok cs =>
      show ((MEv.loginCall :: MEv.getPinned :: (courseLoop o cs).1) ++
        [MEv.quit]).getLast? = some MEv.quit
      exact List.getLast?_concat _

/-- C9: with overwrite enabled the idempotent skip is never taken — whatever
file exists at the target, of any size — and when a video's metadata
resolution succeeds on attempt 1 the download call is made. -/
theorem overwrite_forces_download :
    ∀ (c : Nat) (env : Nat → AttEnv),
      (∀ p, Ev.skip p ∉ processVideo true c env) ∧
      (∀ hls folder file, (env 1).extract = .ok (hls, folder, file) →
        Ev.downloadCall hls (outPath folder c file) ∈ processVideo true c env) := by
  intro c env
  constructor
  · intro p hmem
    simp only [processVideo] at hmem
    rcases List.mem_append.mp hmem with h | h
    · exact attemptLoop_no_skip_overwrite c env p _ _ h
    · revert h
      cases (attemptLoop true c env (List.range' 1 3)
          ⟨"unknown".toList, "unknown".toList, none⟩).2.lastExc <;> simp
  · intro hls folder file hx
    simp only [processVideo, show List.range' 1 3 = [1, 2, 3] from rfl]
    simp only [attemptLoop, hx]
    rw [skipCond_overwrite]
    cases hd : (env 1).download with
    | ok u => simp
    | error e => simp

/-- Witness for C9: the download call is made although the target file already
exists with 2,000,000 bytes, because overwrite is enabled. -/
theorem overwrite_forces_download_witness :
    Ev.downloadCall "h".toList (outPath "F".toList 5 "T".toList) ∈
      processVideo true 5 alwaysBigEnv :=
  (overwrite_forces_download 5 alwaysBigEnv).2 "h".toList "F".toList "T".toList rfl

/-- C10: when the download succeeds on attempt 2 or 3 after every earlier
attempt raised, the successful attempt resets the remembered exception, so no
failure record is written for the video. -/
theorem late_success_clears_failure :
    ∀ (o : Bool) (c : Nat) (env : Nat → AttEnv) (k : Nat),
      (k = 2 ∨ k = 3) →
      (∀ j, 1 ≤ j → j < k → attemptRaises o c (env j)) →
      attemptDownloadOk o c (env k) →
      ∀ p, Ev.failWrite p ∉ processVideo o c env := by
  intro o c env k hk hra hok p
  have hnone : (attemptLoop o c env (List.range' 1 3)
      ⟨"unknown".toList, "unknown".toList, none⟩).2.lastExc = none := by
    rw [show List.range' 1 3 = [1, 2, 3] from rfl]
    rcases hk with rfl | rfl
    · obtain ⟨f1, l1, he⟩ :=
        attemptLoop_snd_raise o c env 1 [2, 3] _ (hra 1 (by omega) (by omega))
      rw [he]
      exact attemptLoop_snd_success o c env 2 [3] _ hok
    · obtain ⟨f1, l1, he1⟩ :=
        attemptLoop_snd_raise o c env 1 [2, 3] _ (hra 1 (by omega) (by omega))
      rw [he1]
      obtain ⟨f2, l2, he2⟩ :=
        attemptLoop_snd_raise o c env 2 [3] _ (hra 2 (by omega) (by omega))
      rw [he2]
      exact attemptLoop_snd_success o c env 3 [] _ hok
  intro hmem
  simp only [processVideo] at hmem
  rw [hnone] at hmem
  simp only [List.append_nil] at hmem
  exact attemptLoop_no_failWrite o c env p _ _ hmem

/-- Witness for C10: attempt 1 raises, attempt 2 downloads successfully, and
no failure record is written. -/
theorem late_success_clears_failure_witness :
    Ev.failWrite "out/F/05 T".toList ∉ processVideo false 5 raiseThenOkEnv :=
  late_success_clears_failure false 5 raiseThenOkEnv 2 (Or.inl rfl)
    (by
      intro j h1 h2
      have hj : j = 1 := by omega
      subst hj
      exact Or.inl rfl)
    ⟨"h".toList, "F".toList, "T".toList, rfl, rfl, rfl⟩ "out/F/05 T".toList

end RbgLiveDl
